/-
Verification of the multi-language feature-flag extraction engine of
drone-harness-fme-tech-debt-validator.

The development shallowly embeds the extraction code:
  * `extract_flags_regex` (src/app/extractors/regex_fallback.py) and
    `extract_flags_csharp_regex_fallback` (src/app/extractors/csharp.py)
    are modelled as executable scanners over `List Char` that reproduce the
    behaviour of Python's `re.findall` on the exact pattern strings of the
    source (leftmost match, non-overlapping continuation at the match end,
    lazy/greedy quantifier semantics, backtracking over ordered
    alternatives).  Character classes `\s` and `\w` are modelled at ASCII
    level, which covers every input appearing in the claims.
  * the AST analyzers (python.py, java.py, javascript.py, csharp.py) are
    modelled over per-language syntax-tree types holding exactly the node
    shapes the Python code inspects; parsing itself is external, so each
    analyzer takes an `Option` parse result (`none` models a parse failure,
    i.e. the exception caught by the analyzer's `try`/`except`).
  * the dispatcher and orchestrator of src/app/main.py
    (`CITestRunner.get_feature_flags_in_code`) are modelled over a
    `SourceFile` record bundling a path, raw text and the parse attempts,
    and a read-result model of the filesystem.
-/
import Mathlib

namespace FmeValidator

/-! ## Python-value helpers shared by all analyzer models -/

/-- The apostrophe character (used as the single-quote delimiter in the
regex patterns). -/
def apostropheChar : Char := Char.ofNat 39

/-- A character matched by the `["\']` class of the source patterns. -/
def isQuoteChar (c : Char) : Bool := c == '"' || c == apostropheChar

/-- ASCII model of the regex class `\s`. -/
def isSpaceChar (c : Char) : Bool :=
  c == ' ' || c == '\t' || c == '\n' || c == '\r' ||
  c == Char.ofNat 11 || c == Char.ofNat 12

/-- The class `[a-zA-Z]` (the anchor class of the call-site patterns is its
complement `[^a-zA-Z]`). -/
def isAsciiLetter (c : Char) : Bool :=
  ('a' ≤ c && c ≤ 'z') || ('A' ≤ c && c ≤ 'Z')

/-- ASCII model of the regex class `\w` = `[a-zA-Z0-9_]`. -/
def isWordChar (c : Char) : Bool :=
  isAsciiLetter c || ('0' ≤ c && c ≤ '9') || c == '_'

/-- Model of Python's `list(set(xs))` for hashable (string) elements: a
duplicate-free list with the same members.  Element order of a Python set
is unspecified; `List.dedup` (keeping the last occurrence) is the canonical
choice used throughout. -/
def pySet (xs : List String) : List String := xs.dedup

/-- Occurrence of `sub` as a contiguous sublist of a character list. -/
def charsContain (sub : List Char) : List Char → Bool
  | [] => List.isEmpty sub
  | c :: rs => List.isPrefixOf sub (c :: rs) || charsContain sub rs

/-- Model of Python's substring test `sub in s`. -/
def pyIn (sub s : String) : Bool := charsContain sub.toList s.toList

/-- Model of Python's `s.endswith(suffix)`. -/
def pyEndsWith (s suffix : String) : Bool :=
  List.isPrefixOf suffix.toList.reverse s.toList.reverse

/-! ## Regex fallback analyzer (src/app/extractors/regex_fallback.py) -/

/-- A matcher attempts a pattern anchored at the head of the list and
returns the captured group together with the number of characters the
whole match consumed. -/
abbrev Matcher := List Char → Option (String × Nat)

/-- Literal text followed by a continuation. -/
def litThen (lit : List Char) (k : Matcher) : Matcher := fun rest =>
  if List.isPrefixOf lit rest then
    (k (List.drop lit.length rest)).map (fun r => (r.1, r.2 + lit.length))
  else none

/-- Ordered alternatives of literal texts (regex backtracking order),
each followed by the same continuation. -/
def altsThen (alts : List (List Char)) (k : Matcher) : Matcher := fun rest =>
  match alts with
  | [] => none
  | a :: more => litThen a k rest <|> altsThen more k rest

/-- Model of `\s*` (greedy) followed by a continuation. -/
def spacesThen (k : Matcher) : Matcher := fun rest =>
  let p := List.span isSpaceChar rest
  (k p.2).map (fun r => (r.1, r.2 + p.1.length))

/-- Model of `\s+` (greedy) followed by a continuation. -/
def spaces1Then (k : Matcher) : Matcher := fun rest =>
  let p := List.span isSpaceChar rest
  if p.1.isEmpty then none
  else (k p.2).map (fun r => (r.1, r.2 + p.1.length))

/-- A single required character followed by a continuation. -/
def charThen (ch : Char) (k : Matcher) : Matcher := fun rest =>
  match rest with
  | [] => none
  | c :: rs => if c == ch then (k rs).map (fun r => (r.1, r.2 + 1)) else none

/-- Model of `\w+` (greedy) followed by a continuation (the continuations used in
the source never start with a word character, so no backtracking into the
run is possible). -/
def wordThen (k : Matcher) : Matcher := fun rest =>
  let p := List.span isWordChar rest
  if p.1.isEmpty then none
  else (k p.2).map (fun r => (r.1, r.2 + p.1.length))

/-- After an opening quote: `([^"\']+?)["\']` — at least one non-quote
character, lazily up to the next quote.  Returns the capture and the
characters consumed after the opening quote. -/
def quoteCapture (rs : List Char) : Option (String × Nat) :=
  let p := List.span (fun x => !(isQuoteChar x)) rs
  match p.2 with
  | [] => none
  | _ :: _ => if p.1.isEmpty then none else some (String.mk p.1, p.1.length + 1)

/-- Model of `[^)]*?["\']([^"\']+?)["\']` — the lazy scan inside a parenthesised
argument list: advance over non-`)` characters to each quote in turn and
take the first quote pair with a non-empty body. -/
def parenCaptureM : Matcher
  | [] => none
  | c :: rs =>
    if c == ')' then none
    else if isQuoteChar c then
      match quoteCapture rs with
      | some r => some (r.1, r.2 + 1)
      | none => (parenCaptureM rs).map (fun r => (r.1, r.2 + 1))
    else (parenCaptureM rs).map (fun r => (r.1, r.2 + 1))

/-- Inside a group bounded by `closer`, after an opening quote:
`[^"\']+["\'][^c]*?c` — a non-empty non-quote run, its closing quote, then
lazily the first `closer`.  Returns the consumed count including the
closer. -/
def quoteRunToClose (closer : Char) (rs : List Char) : Option Nat :=
  let p := List.span (fun x => !(isQuoteChar x)) rs
  if p.1.isEmpty then none
  else
    match p.2 with
    | [] => none
    | _ :: rest2 =>
      match List.findIdx? (fun x => x == closer) rest2 with
      | some d => some (p.1.length + 1 + d + 1)
      | none => none

/-- Model of `([^c]*?["\'][^"\']+["\'][^c]*?)c` — the group shape of the array
patterns: find the closing character reachable through a quoted pair,
trying opening quotes from left to right. -/
def groupFindClose (closer : Char) : List Char → Option Nat
  | [] => none
  | c :: rs =>
    if c == closer then none
    else if isQuoteChar c then
      match quoteRunToClose closer rs with
      | some n => some (n + 1)
      | none => (groupFindClose closer rs).map (fun n => n + 1)
    else (groupFindClose closer rs).map (fun n => n + 1)

/-- Capture everything up to (excluding) the group's closing character. -/
def groupThen (closer : Char) : Matcher := fun rest =>
  (groupFindClose closer rest).map (fun n => (String.mk (List.take (n - 1) rest), n))

/-- Model of `(?:_?[Aa]sync)?` of the first source pattern. -/
def asyncOptM (k : Matcher) : Matcher := fun rest =>
  altsThen ["_".toList, []] (altsThen ["Async".toList, "async".toList] k) rest <|> k rest

/-- Model of `(?:_?[Ww]ith_?[Cc]onfig(?:_?[Aa]sync)?)?` of the first source pattern. -/
def configOptM (k : Matcher) : Matcher := fun rest =>
  altsThen ["_".toList, []]
    (altsThen ["With".toList, "with".toList]
      (altsThen ["_".toList, []]
        (altsThen ["Config".toList, "config".toList] (asyncOptM k)))) rest
    <|> k rest

/-- Method-name part of `patterns[0]`:
`(?:get_?)?[Tt]reatments?(?:_?[Ww]ith_?[Cc]onfig(?:_?[Aa]sync)?)?`. -/
def pattern1NameM (k : Matcher) : Matcher :=
  altsThen ["get_".toList, "get".toList, []]
    (altsThen ["Treatment".toList, "treatment".toList]
      (altsThen ["s".toList, []] (configOptM k)))

/-- Method-name part of `patterns[1]`:
`GetTreatments?(?:WithConfig(?:Async)?)?`. -/
def pattern2NameM (k : Matcher) : Matcher :=
  litThen "GetTreatment".toList
    (altsThen ["s".toList, []] (fun rest =>
      litThen "WithConfig".toList
        (fun r2 => litThen "Async".toList k r2 <|> k r2) rest <|> k rest))

/-- Model of `(?:Async)?` of the C#-style name shape. -/
def csAsyncOptM (k : Matcher) : Matcher := fun rest =>
  litThen "Async".toList k rest <|> k rest

/-- Model of `GetTreatments?(?:WithConfig)?(?:Async)?` (used by the gated
`new List<string>` pattern and by the C# regex sub-fallback). -/
def csDirectNameM (k : Matcher) : Matcher :=
  litThen "GetTreatment".toList
    (altsThen ["s".toList, []] (fun rest =>
      litThen "WithConfig".toList (csAsyncOptM k) rest <|> csAsyncOptM k rest))

/-- Model of `\s*\([^)]*?["\']([^"\']+?)["\']` — the shared tail of all call-site
patterns. -/
def afterNameM : Matcher := spacesThen (charThen '(' parenCaptureM)

/-- Model of the `[^a-zA-Z]` alternative of the anchor: consume one
non-letter character, then match the pattern body. -/
def anchorCharAttempt (pm : Matcher) : Matcher
  | [] => none
  | c :: rs => if isAsciiLetter c then none else (pm rs).map (fun r => (r.1, r.2 + 1))

/-- Model of `(?:^|[^a-zA-Z])` followed by the pattern body: at the start of the
text the zero-width `^` branch is tried first; otherwise one non-letter
character must be consumed before the body. -/
def anchoredAttempt (pm : Matcher) (atStart : Bool) : Matcher := fun rest =>
  if atStart then pm rest <|> anchorCharAttempt pm rest else anchorCharAttempt pm rest

/-- Fuel-bounded `re.findall` scan for an anchored pattern: try each
position from left to right, continue after the end of every match
(non-overlapping).  Every step consumes at least one character, so any
fuel of at least the text length is exact. -/
def scanAnchoredFuel (pm : Matcher) : Nat → Bool → List Char → List String
  | 0, _, _ => []
  | _ + 1, _, [] => []
  | fuel + 1, atStart, c :: rs =>
    match anchoredAttempt pm atStart (c :: rs) with
    | some r => r.1 :: scanAnchoredFuel pm fuel false ((c :: rs).drop (max r.2 1))
    | none => scanAnchoredFuel pm fuel false rs

/-- Model of `re.findall` scan for an anchored pattern. -/
def scanAnchored (pm : Matcher) (atStart : Bool) (s : List Char) : List String :=
  scanAnchoredFuel pm (s.length + 1) atStart s

/-- Fuel-bounded `re.findall` scan for an unanchored pattern. -/
def scanAllFuel (m : Matcher) : Nat → List Char → List String
  | 0, _ => []
  | _ + 1, [] => []
  | fuel + 1, c :: rs =>
    match m (c :: rs) with
    | some r => r.1 :: scanAllFuel m fuel ((c :: rs).drop (max r.2 1))
    | none => scanAllFuel m fuel rs

/-- Model of `re.findall` scan for an unanchored pattern. -/
def scanAll (m : Matcher) (s : List Char) : List String :=
  scanAllFuel m (s.length + 1) s

mutual
/-- Model of `re.findall(r'["\']([^"\']+)["\']', s)` — every quoted string with a
non-empty body, scanning left to right. -/
def quotedStrings : List Char → List String
  | [] => []
  | c :: rs => if isQuoteChar c then quotedInner rs [] else quotedStrings rs

/-- Body collector after an opening quote (`acc` holds the reversed body
seen so far). -/
def quotedInner : List Char → List Char → List String
  | [], _ => []
  | d :: ds, acc =>
    if isQuoteChar d then
      if acc.isEmpty then quotedInner ds []
      else String.mk acc.reverse :: quotedStrings ds
    else quotedInner ds (d :: acc)
end

/-- Model of `\[( ... )\]` — `array_patterns[0]` and `array_patterns[1]`. -/
def bracketM : Matcher := charThen '[' (groupThen ']')

/-- Model of `Arrays\.asList\s*\(( ... )\)` — `array_patterns[2]`. -/
def asListM : Matcher :=
  litThen "Arrays.asList".toList (spacesThen (charThen '(' (groupThen ')')))

/-- Model of `new\s+String\[\]\s*\{( ... )\}` — `array_patterns[3]`. -/
def newStringArrayM : Matcher :=
  litThen "new".toList
    (spaces1Then (litThen "String[]".toList (spacesThen (charThen '{' (groupThen '}')))))

/-- Model of `new\s+List<string>\s*\{` followed by a group matcher. -/
def newListCoreM (g : Matcher) : Matcher :=
  litThen "new".toList
    (spaces1Then (litThen "List<string>".toList (spacesThen (charThen '{' g))))

/-- Descending-offset search used to model a greedy `[^)]*` before an
inner pattern: the latest viable start position wins. -/
def tryFromDesc (inner : Matcher) (rest : List Char) : Nat → Option (String × Nat)
  | 0 => inner rest
  | p + 1 =>
    match inner (List.drop (p + 1) rest) with
    | some r => some (r.1, r.2 + (p + 1))
    | none => tryFromDesc inner rest p

/-- Model of `[^)]*` (greedy) followed by an inner pattern: the inner match may not
start past the first `)` (nor past the end of the text). -/
def lastMatchIn (inner : Matcher) : Matcher := fun rest =>
  let bound := (List.findIdx? (fun x => x == ')') rest).getD rest.length
  tryFromDesc inner rest bound

/-- Model of `GetTreatments?(?:WithConfig)?(?:Async)?\s*\([^)]*new\s+List<string>\s*\{( ... )\}`
— `array_patterns[4]`, the only array pattern gated on a recognized call. -/
def gatedListM : Matcher :=
  csDirectNameM (spacesThen (charThen '(' (lastMatchIn (newListCoreM (groupThen '}')))))

/-- Model of `var\s+\w+\s*=\s*new\s+List<string>\s*\{( ... )\}` — `array_patterns[5]`. -/
def varListM : Matcher :=
  litThen "var".toList
    (spaces1Then (wordThen (spacesThen (charThen '=' (spacesThen (newListCoreM (groupThen '}')))))))

/-- Model of `List<string>\s+\w+\s*=\s*new\s+List<string>\s*\{( ... )\}` —
`array_patterns[6]`. -/
def declListM : Matcher :=
  litThen "List<string>".toList
    (spaces1Then (wordThen (spacesThen (charThen '=' (spacesThen (newListCoreM (groupThen '}')))))))

/-- Model of `extract_flags_regex` of src/app/extractors/regex_fallback.py: the two
call-site patterns, then the seven array patterns (the bracket pattern is
listed twice in the source), each match's group mined for quoted strings,
then `list(set(...))`. -/
def extract_flags_regex (content : String) : List String :=
  let s := content.toList
  let flags :=
    scanAnchored (pattern1NameM afterNameM) true s ++
    scanAnchored (pattern2NameM afterNameM) true s
  let arrayCaptures :=
    scanAll bracketM s ++ scanAll bracketM s ++ scanAll asListM s ++
    scanAll newStringArrayM s ++ scanAll gatedListM s ++
    scanAll varListM s ++ scanAll declListM s
  pySet (flags ++ arrayCaptures.flatMap (fun a => quotedStrings a.toList))

/-! ## C# regex sub-fallback (`_extract_flags_csharp_regex_fallback`,
src/app/extractors/csharp.py lines 118-172) -/

/-- Consume a literal, returning consumed count and remainder. -/
def eatLit (lit : List Char) (rest : List Char) : Option (Nat × List Char) :=
  if List.isPrefixOf lit rest then some (lit.length, List.drop lit.length rest) else none

/-- Consume `\s*` greedily. -/
def eatSpaces (rest : List Char) : Nat × List Char :=
  let p := List.span isSpaceChar rest
  (p.1.length, p.2)

/-- Consume `\s+`. -/
def eatSpaces1 (rest : List Char) : Option (Nat × List Char) :=
  let p := List.span isSpaceChar rest
  if p.1.isEmpty then none else some (p.1.length, p.2)

/-- Consume one specific character. -/
def eatChar (ch : Char) (rest : List Char) : Option (Nat × List Char) :=
  match rest with
  | [] => none
  | c :: rs => if c == ch then some (1, rs) else none

/-- Consume one quote character (`["\']`). -/
def eatQuote (rest : List Char) : Option (Nat × List Char) :=
  match rest with
  | [] => none
  | c :: rs => if isQuoteChar c then some (1, rs) else none

/-- Consume `[a-zA-Z_][a-zA-Z0-9_]*` greedily, returning the identifier. -/
def eatIdent (rest : List Char) : Option (List Char × Nat × List Char) :=
  match rest with
  | [] => none
  | c :: rs =>
    if isAsciiLetter c || c == '_' then
      let p := List.span isWordChar rs
      some (c :: p.1, p.1.length + 1, p.2)
    else none

/-- Consume `[^"\']+` greedily, returning the body. -/
def eatNonQuotes1 (rest : List Char) : Option (List Char × Nat × List Char) :=
  let p := List.span (fun x => !(isQuoteChar x)) rest
  if p.1.isEmpty then none else some (p.1, p.1.length, p.2)

/-- Model of `string\s+([a-zA-Z_][a-zA-Z0-9_]*)\s*=\s*["\']([^"\']+)["\'];` — the
variable-declaration pattern of the C# sub-fallback (two captures). -/
def csVarDeclAttempt (rest : List Char) : Option ((String × String) × Nat) := do
  let (n1, r1) ← eatLit "string".toList rest
  let (n2, r2) ← eatSpaces1 r1
  let (idt, n3, r3) ← eatIdent r2
  let (n4, r4) := eatSpaces r3
  let (n5, r5) ← eatChar '=' r4
  let (n6, r6) := eatSpaces r5
  let (n7, r7) ← eatQuote r6
  let (body, n8, r8) ← eatNonQuotes1 r7
  let (n9, r9) ← eatQuote r8
  let (n10, _) ← eatChar ';' r9
  pure ((String.mk idt, String.mk body), n1 + n2 + n3 + n4 + n5 + n6 + n7 + n8 + n9 + n10)

/-- Fuel-bounded `re.findall` scan for a two-capture pattern. -/
def scanAllPairsFuel (m : List Char → Option ((String × String) × Nat)) :
    Nat → List Char → List (String × String)
  | 0, _ => []
  | _ + 1, [] => []
  | fuel + 1, c :: rs =>
    match m (c :: rs) with
    | some r => r.1 :: scanAllPairsFuel m fuel ((c :: rs).drop (max r.2 1))
    | none => scanAllPairsFuel m fuel rs

/-- Model of `re.findall` scan for a two-capture pattern. -/
def scanAllPairs (m : List Char → Option ((String × String) × Nat))
    (s : List Char) : List (String × String) :=
  scanAllPairsFuel m (s.length + 1) s

mutual
/-- Maximal runs of `\w` characters of a text, in order. -/
def wordRuns : List Char → List (List Char)
  | [] => []
  | c :: rs => if isWordChar c then wordRunInner rs [c] else wordRuns rs

/-- Collector for the current word run (reversed accumulator). -/
def wordRunInner : List Char → List Char → List (List Char)
  | [], acc => [acc.reverse]
  | d :: ds, acc =>
    if isWordChar d then wordRunInner ds (d :: acc)
    else acc.reverse :: wordRuns ds
end

/-- Model of `\b([a-zA-Z_][a-zA-Z0-9_]*)\b` inside `[^)]*...[^)]*`: the last
maximal word run starting with a letter or underscore, as selected by the
greedy leading `[^)]*`. -/
def lastIdentIn (region : List Char) : Option String :=
  (((wordRuns region).filter (fun r =>
      match r with
      | c :: _ => isAsciiLetter c || c == '_'
      | [] => false)).getLast?).map String.mk

/-- Model of `\([^)]*\b([a-zA-Z_][a-zA-Z0-9_]*)\b[^)]*\)` — the argument-region
part of the `var_usage_pattern` (both `[^)]*` stop at the first `)`). -/
def usageRegionM : Matcher := fun rest =>
  match List.findIdx? (fun x => x == ')') rest with
  | none => none
  | some i =>
    match lastIdentIn (List.take i rest) with
    | some idt => some (idt, i + 1)
    | none => none

/-- Model of `([^}]+)\}` — greedy single-capture brace group of the sub-fallback's
`list_patterns`. -/
def greedyBraceM : Matcher := fun rest =>
  let p := List.span (fun x => x != '}') rest
  match p.2 with
  | [] => none
  | _ :: _ => if p.1.isEmpty then none else some (String.mk p.1, p.1.length + 1)

/-- Model of `([^)]+)\)` — greedy single-capture paren group of the sub-fallback's
`arrays_aslist_pattern`. -/
def greedyParenM : Matcher := fun rest =>
  let p := List.span (fun x => x != ')')  rest
  match p.2 with
  | [] => none
  | _ :: _ => if p.1.isEmpty then none else some (String.mk p.1, p.1.length + 1)

/-- Model of `GetTreatments?(?:WithConfig)?(?:Async)?\([^)]*\b(ident)\b[^)]*\)` —
`var_usage_pattern` (no `\s*` before the parenthesis). -/
def csVarUsageM : Matcher := csDirectNameM (charThen '(' usageRegionM)

/-- Sub-fallback `list_patterns[0]` (gated on a recognized call). -/
def csList1M : Matcher :=
  csDirectNameM (spacesThen (charThen '(' (lastMatchIn (newListCoreM greedyBraceM))))

/-- Sub-fallback `list_patterns[1]`: `List<string>\s+\w+\s*=\s*new\s+List<string>\s*\{([^}]+)\}`. -/
def csList2M : Matcher :=
  litThen "List<string>".toList
    (spaces1Then (wordThen (spacesThen (charThen '=' (spacesThen (newListCoreM greedyBraceM))))))

/-- Sub-fallback `list_patterns[2]`: `readonly\s+List<string>\s+\w+\s*=\s*new\s+List<string>\s*\{([^}]+)\}`. -/
def csList3M : Matcher :=
  litThen "readonly".toList
    (spaces1Then (litThen "List<string>".toList
      (spaces1Then (wordThen (spacesThen (charThen '=' (spacesThen (newListCoreM greedyBraceM))))))))

/-- Sub-fallback `list_patterns[3]`: `var\s+\w+\s*=\s*new\s+List<string>\s*\{([^}]+)\}`. -/
def csList4M : Matcher :=
  litThen "var".toList
    (spaces1Then (wordThen (spacesThen (charThen '=' (spacesThen (newListCoreM greedyBraceM))))))

/-- Sub-fallback `arrays_aslist_pattern`: `Arrays\.asList\s*\(([^)]+)\)`. -/
def csAsListM : Matcher :=
  litThen "Arrays.asList".toList (spacesThen (charThen '(' greedyParenM))

/-- Lookup in a Python-dict model stored as an association list whose head
holds the most recent insertion. -/
def pyDictFind (d : List (String × String)) (k : String) : Option String :=
  (d.find? (fun p => p.1 == k)).map (fun p => p.2)

/-- Model of `_extract_flags_csharp_regex_fallback` of src/app/extractors/csharp.py:
variable declarations feed a dict, then direct-call captures, resolved
variable usages, `List<string>` initializer strings, `Arrays.asList`
strings, then `list(set(...))`. -/
def extract_flags_csharp_regex_fallback (content : String) : List String :=
  let s := content.toList
  let vars := (scanAllPairs csVarDeclAttempt s).foldl (fun d p => p :: d) []
  let direct := scanAnchored (csDirectNameM afterNameM) true s
  let resolved := (scanAll csVarUsageM s).filterMap (fun v => pyDictFind vars v)
  let listCaps := scanAll csList1M s ++ scanAll csList2M s ++ scanAll csList3M s ++ scanAll csList4M s
  let asListCaps := scanAll csAsListM s
  pySet (direct ++ resolved ++
    listCaps.flatMap (fun a => quotedStrings a.toList) ++
    asListCaps.flatMap (fun a => quotedStrings a.toList))

/-! ## Shared analyzer-state values

The Python analyzers store either a single string or a list of strings in
their `variables` dict, and their `flags` accumulator can (through the
inline-list identifier path) receive a raw list value; `list(set(flags))`
then raises `TypeError: unhashable type` and the surrounding `except`
returns `[]`. -/

/-- A Python value held in an analyzer's `variables` dict or appended to
its `flags` list. -/
inductive PyVal where
  | str (s : String)
  | list (xs : List String)
deriving DecidableEq, Repr

/-- Whether the value is a (hashable) string. -/
def PyVal.isStr : PyVal → Bool
  | .str _ => true
  | .list _ => false

/-- The string carried by a `.str` value. -/
def PyVal.strVal : PyVal → Option String
  | .str s => some s
  | .list _ => none

/-- Lookup in a `variables` dict holding `PyVal`s (head = most recent). -/
def pyVarsFind (d : List (String × PyVal)) (k : String) : Option PyVal :=
  (d.find? (fun p => p.1 == k)).map (fun p => p.2)

/-- Model of `list(set(flags))` on a flags list that may hold unhashable
list values: raises `TypeError` (converted by the analyzer's `except` to
`[]`) whenever a list value is present, otherwise deduplicates. -/
def pyFinalize (flags : List PyVal) : List String :=
  if flags.all PyVal.isStr then pySet (flags.filterMap PyVal.strVal) else []

/-! ## Python analyzer (src/app/extractors/python.py)

`ast.walk` yields every node of the parsed module; only `ast.Assign` and
`ast.Call` nodes have an effect, so a parse is modelled as the walk-order
sequence of those nodes (argument and value expressions are carried inside
them, exactly the attributes the source inspects). -/

/-- An expression shape the Python analyzer distinguishes. -/
inductive PyExpr where
  | constantStr (s : String)
  | constantOther
  | name (id : String)
  | listE (elts : List PyExpr)
  | otherExpr

/-- An assignment target (`node.targets[i]`). -/
inductive PyTarget where
  | name (id : String)
  | otherTarget
deriving DecidableEq, Repr

/-- The `func` of an `ast.Call`: attribute access, plain name, or other. -/
inductive PyFunc where
  | attribute (attr : String)
  | name (id : String)
  | otherFunc
deriving DecidableEq, Repr

/-- A walked node with an effect in the analyzer. -/
inductive PyNode where
  | assign (targets : List PyTarget) (value : PyExpr)
  | call (func : PyFunc) (args : List PyExpr)
  | otherNode

/-- The recognized method names of the Python analyzer. -/
def pythonFlagMethods : List String :=
  ["getTreatment", "get_treatment", "treatment", "get_treatment_with_config",
   "getTreatments", "get_treatments", "get_treatments_with_config"]

/-- Model of `method_name` extraction from `node.func`. -/
def pyMethodNameOf : PyFunc → Option String
  | .attribute a => some a
  | .name n => some n
  | .otherFunc => none

/-- Effect of an `ast.Assign` node on the `variables` dict. -/
def pyHandleAssign (vars : List (String × PyVal)) (targets : List PyTarget)
    (value : PyExpr) : List (String × PyVal) :=
  match targets with
  | [PyTarget.name varName] =>
    match value with
    | .constantStr s => (varName, .str s) :: vars
    | .listE elts =>
      let arrayValues := elts.filterMap (fun e =>
        match e with
        | .constantStr s => some s
        | _ => none)
      if arrayValues.isEmpty then vars else (varName, .list arrayValues) :: vars
    | _ => vars
  | _ => vars

/-- Values contributed by one argument of a recognized call.  On the
inline-list path an identifier element found in `variables` contributes
the raw dict value (possibly a list — `flags.append(variables[element.id])`). -/
def pyArgFlags (vars : List (String × PyVal)) (arg : PyExpr) : List PyVal :=
  match arg with
  | .constantStr s => [.str s]
  | .name id =>
    match pyVarsFind vars id with
    | some (.str s) => [.str s]
    | some (.list xs) => xs.map PyVal.str
    | none => []
  | .listE elts =>
    elts.flatMap (fun element =>
      match element with
      | .constantStr s => [PyVal.str s]
      | .name id =>
        match pyVarsFind vars id with
        | some v => [v]
        | none => []
      | _ => [])
  | _ => []

/-- One step of the `for node in ast.walk(tree)` loop. -/
def pyStep (st : List (String × PyVal) × List PyVal) (n : PyNode) :
    List (String × PyVal) × List PyVal :=
  match n with
  | .assign ts v => (pyHandleAssign st.1 ts v, st.2)
  | .call f args =>
    match pyMethodNameOf f with
    | some m =>
      if pythonFlagMethods.contains m then (st.1, st.2 ++ args.flatMap (pyArgFlags st.1))
      else st
    | none => st
  | .otherNode => st

/-- The walked `flags` accumulator for a node sequence. -/
def pyWalkFlags (nodes : List PyNode) : List PyVal :=
  (nodes.foldl pyStep ([], [])).2

/-- Model of `extract_flags_ast_python`: `none` models `ast.parse` raising (caught,
`[]` returned); otherwise walk then `list(set(flags))` (whose `TypeError`
on an unhashable element is also caught and yields `[]`). -/
def extract_flags_ast_python (parse : Option (List PyNode)) : List String :=
  match parse with
  | none => []
  | some nodes => pyFinalize (pyWalkFlags nodes)

/-! ## Java analyzer (src/app/extractors/java.py)

`for path, node in tree` iterates every node of the javalang tree; only
`VariableDeclarator` and `MethodInvocation` nodes have an effect.  A
javalang `Literal` carries the raw token text (string literals include
their quotes), which the source strips with `value[1:-1]`. -/

/-- The qualifier shapes the source distinguishes on an `Arrays.asList`
candidate. -/
inductive JavaQualifier where
  | strQ (s : String)
  | memberQ (member : String)
  | valueQ (value : String)
  | noneQ
  | otherQ
deriving DecidableEq, Repr

/-- An argument shape of a Java method invocation. -/
inductive JavaArg where
  | literal (value : String)
  | memberReference (member : String)
  | methodInvocationA (qualifier : JavaQualifier) (member : String)
      (arguments : List JavaArg)
  | arrayCreator (initializers : Option (List JavaArg))
  | otherArg

/-- The initializer of a `VariableDeclarator`. -/
inductive JavaInit where
  | literal (value : String)
  | methodInvocationI (qualifier : JavaQualifier) (member : String)
      (arguments : List JavaArg)
  | otherInit

/-- An iterated node with an effect in the analyzer. -/
inductive JavaNode where
  | variableDeclarator (name : String) (initializer : JavaInit)
  | methodInvocation (member : String) (arguments : List JavaArg)
  | otherNode

/-- Model of `value[1:-1] if value.startswith(chr(34)) else value`. -/
def stripJavaQuotes (v : String) : String :=
  if v.startsWith "\"" then (v.drop 1).dropRight 1 else v

/-- The recognized method names of the Java analyzer. -/
def javaFlagMethods : List String :=
  ["getTreatment", "treatment", "getTreatmentWithConfig", "getTreatments",
   "getTreatmentsWithConfig"]

/-- The `is_arrays_aslist` qualifier test of the call-argument branch. -/
def isArraysAsList (q : JavaQualifier) : Bool :=
  match q with
  | .strQ s => s == "Arrays"
  | .memberQ m => m == "Arrays"
  | .valueQ v => v == "Arrays"
  | _ => false

/-- Effect of a `VariableDeclarator` node on `variables` (the declaration
branch only accepts the plain-string qualifier spelling of `Arrays`). -/
def javaHandleDeclarator (vars : List (String × PyVal)) (name : String)
    (init : JavaInit) : List (String × PyVal) :=
  match init with
  | .literal v =>
    if v.startsWith "\"" && v.endsWith "\"" then
      (name, .str ((v.drop 1).dropRight 1)) :: vars
    else vars
  | .methodInvocationI q m args =>
    if m == "asList" && (match q with | .strQ s => s == "Arrays" | _ => false) then
      let arrayValues := args.filterMap (fun a =>
        match a with
        | .literal v => some (stripJavaQuotes v)
        | _ => none)
      if arrayValues.isEmpty then vars else (name, .list arrayValues) :: vars
    else vars
  | .otherInit => vars

/-- Strings contributed by one argument of a recognized Java call. -/
def javaArgFlags (vars : List (String × PyVal)) (arg : JavaArg) : List String :=
  match arg with
  | .literal v => [stripJavaQuotes v]
  | .memberReference m =>
    match pyVarsFind vars m with
    | some (.str s) => [s]
    | some (.list xs) => xs
    | none => []
  | .methodInvocationA q m args =>
    if m == "asList" && isArraysAsList q then
      args.filterMap (fun la =>
        match la with
        | .literal v => some (stripJavaQuotes v)
        | _ => none)
    else []
  | .arrayCreator oinit =>
    match oinit with
    | some inits =>
      inits.filterMap (fun e =>
        match e with
        | .literal v => some (stripJavaQuotes v)
        | _ => none)
    | none => []
  | .otherArg => []

/-- One step of the `for path, node in tree` loop. -/
def javaStep (st : List (String × PyVal) × List String) (n : JavaNode) :
    List (String × PyVal) × List String :=
  match n with
  | .variableDeclarator name init => (javaHandleDeclarator st.1 name init, st.2)
  | .methodInvocation member args =>
    if javaFlagMethods.contains member then
      (st.1, st.2 ++ args.flatMap (javaArgFlags st.1))
    else st
  | .otherNode => st

/-- The walked `flags` accumulator for a Java node sequence. -/
def javaWalkFlags (nodes : List JavaNode) : List String :=
  (nodes.foldl javaStep ([], [])).2

/-- Model of `extract_flags_ast_java`: `javalang` may be missing (`[]`), the parse
may raise (`[]`), else walk and `list(set(flags))`. -/
def extract_flags_ast_java (javalangAvailable : Bool)
    (parse : Option (List JavaNode)) : List String :=
  if !javalangAvailable then []
  else
    match parse with
    | none => []
    | some nodes => pySet (javaWalkFlags nodes)

/-! ## JavaScript analyzer (src/app/extractors/javascript.py)

`walk_node` handles `VariableDeclaration` and `CallExpression` nodes and
recurses into all child nodes; other nodes only recurse. -/

/-- An element of a JS `ArrayExpression`. -/
inductive JsElem where
  | literalStr (value : String)
  | identifier (name : String)
  | otherElem
deriving DecidableEq, Repr

/-- An argument of a JS call expression. -/
inductive JsArg where
  | literalStr (value : String)
  | identifier (name : String)
  | arrayExpression (elements : List JsElem)
  | otherArg

/-- The initializer of a JS variable declarator (`noInit` models both a
missing `init` and a `None` one). -/
inductive JsInit where
  | literalStr (value : String)
  | arrayExpression (elements : List JsElem)
  | otherInit
  | noInit
deriving DecidableEq, Repr

/-- A declarator: identifier name (when `id` is an `Identifier`) and
initializer. -/
structure JsDecl where
  idName : Option String
  init : JsInit
deriving DecidableEq, Repr

/-- A walked JS node; `memberProp` is the `callee.property.name` when the
callee is a `MemberExpression`, `none` otherwise (direct calls are not
inspected by the source). -/
inductive JsNode where
  | variableDeclaration (declarations : List JsDecl) (children : List JsNode)
  | callExpression (memberProp : Option String) (arguments : List JsArg)
      (children : List JsNode)
  | otherNode (children : List JsNode)

/-- The recognized method names of the JavaScript analyzer. -/
def jsFlagMethods : List String :=
  ["getTreatment", "treatment", "getTreatmentWithConfig", "getTreatments",
   "getTreatmentsWithConfig"]

/-- Effect of a `VariableDeclaration` node on `variables`. -/
def jsHandleDecls (vars : List (String × PyVal)) (ds : List JsDecl) :
    List (String × PyVal) :=
  ds.foldl (fun vs d =>
    match d.idName with
    | none => vs
    | some n =>
      match d.init with
      | .literalStr s => (n, PyVal.str s) :: vs
      | .arrayExpression elems =>
        let arrayValues := elems.filterMap (fun e =>
          match e with
          | .literalStr s => some s
          | _ => none)
        if arrayValues.isEmpty then vs else (n, PyVal.list arrayValues) :: vs
      | _ => vs) vars

/-- Values contributed by one argument of a recognized JS call (the
inline-array identifier path appends the raw dict value, as in Python). -/
def jsArgFlags (vars : List (String × PyVal)) (arg : JsArg) : List PyVal :=
  match arg with
  | .literalStr s => [.str s]
  | .identifier n =>
    match pyVarsFind vars n with
    | some (.str s) => [.str s]
    | some (.list xs) => xs.map PyVal.str
    | none => []
  | .arrayExpression elems =>
    elems.flatMap (fun element =>
      match element with
      | .literalStr s => [PyVal.str s]
      | .identifier n =>
        match pyVarsFind vars n with
        | some v => [v]
        | none => []
      | .otherElem => [])
  | .otherArg => []

/-- Effect of a `CallExpression` node on the state. -/
def jsHandleCall (st : List (String × PyVal) × List PyVal)
    (memberProp : Option String) (args : List JsArg) :
    List (String × PyVal) × List PyVal :=
  match memberProp with
  | some p =>
    if jsFlagMethods.contains p then (st.1, st.2 ++ args.flatMap (jsArgFlags st.1))
    else st
  | none => st

mutual
/-- Model of `walk_node`: handle the node, then recurse into its children. -/
def jsWalk (st : List (String × PyVal) × List PyVal) :
    JsNode → List (String × PyVal) × List PyVal
  | .variableDeclaration ds children => jsWalkList ((jsHandleDecls st.1 ds, st.2)) children
  | .callExpression p args children => jsWalkList (jsHandleCall st p args) children
  | .otherNode children => jsWalkList st children

/-- Child recursion of `walk_node`. -/
def jsWalkList (st : List (String × PyVal) × List PyVal) :
    List JsNode → List (String × PyVal) × List PyVal
  | [] => st
  | n :: ns => jsWalkList (jsWalk st n) ns
end

/-- Model of `extract_flags_ast_javascript`: `esprima` may be missing (`[]`), the
parse may raise (`[]`), else walk and `list(set(flags))` (with the same
unhashable-list behaviour as the Python analyzer). -/
def extract_flags_ast_javascript (esprimaAvailable : Bool)
    (parse : Option JsNode) : List String :=
  if !esprimaAvailable then []
  else
    match parse with
    | none => []
    | some root => pyFinalize (jsWalk ([], []) root).2

/-! ## C# analyzer (src/app/extractors/csharp.py, tree-sitter walk) -/

/-- A tree-sitter C# node as inspected by `walk_tree` (only the `type`
tags the source tests are distinguished; `identifier` and
`string_literal` carry their source text, the latter already stripped of
its quotes as in `content[start_byte + 1 : end_byte - 1]`). -/
inductive CsNode where
  | variableDeclaration (children : List CsNode)
  | variableDeclarator (children : List CsNode)
  | identifier (text : String)
  | equalsValueClause (children : List CsNode)
  | stringLiteral (inner : String)
  | invocationExpression (children : List CsNode)
  | memberAccessExpression (children : List CsNode)
  | argumentList (children : List CsNode)
  | argument (children : List CsNode)
  | objectCreationExpression (children : List CsNode)
  | initializerExpression (children : List CsNode)
  | otherNode (children : List CsNode)

/-- Model of `var_name`/`var_value` of a `variable_declarator` (later children
overwrite earlier ones, as in the source's loop). -/
def csDeclaratorInfo (children : List CsNode) : Option String × Option String :=
  children.foldl (fun acc child =>
    match child with
    | .identifier t => (some t, acc.2)
    | .equalsValueClause vcs =>
      (acc.1, vcs.foldl (fun v vc =>
        match vc with
        | .stringLiteral inner => some inner
        | _ => v) acc.2)
    | _ => acc) (none, none)

/-- Effect of a `variable_declaration` node on `variables`
(`if var_name and var_value` — Python truthiness rejects empty strings). -/
def csHandleVarDeclaration (vars : List (String × String))
    (children : List CsNode) : List (String × String) :=
  children.foldl (fun vs child =>
    match child with
    | .variableDeclarator dcs =>
      match csDeclaratorInfo dcs with
      | (some n, some v) => if n != "" && v != "" then (n, v) :: vs else vs
      | _ => vs
    | _ => vs) vars

/-- Model of `method_name` search over an invocation's children (later finds
overwrite earlier ones). -/
def csMethodName (children : List CsNode) : Option String :=
  children.foldl (fun m child =>
    match child with
    | .memberAccessExpression mcs =>
      mcs.foldl (fun m2 mc =>
        match mc with
        | .identifier t => some t
        | _ => m2) m
    | .identifier t => some t
    | _ => m) none

/-- Flags contributed by the children of one `argument` node. -/
def csArgValueFlags (vars : List (String × String)) (argChildren : List CsNode) :
    List String :=
  argChildren.flatMap (fun av =>
    match av with
    | .stringLiteral inner => [inner]
    | .identifier n =>
      match pyDictFind vars n with
      | some v => [v]
      | none => []
    | .objectCreationExpression ccs =>
      ccs.flatMap (fun cc =>
        match cc with
        | .initializerExpression ics =>
          ics.filterMap (fun ic =>
            match ic with
            | .stringLiteral inner => some inner
            | _ => none)
        | _ => [])
    | _ => [])

/-- The recognition test of the C# analyzer: substring containment
(`"GetTreatment" in method_name or "Treatment" in method_name`), with
Python truthiness on the name. -/
def csRecognized (m : String) : Bool :=
  m != "" && (pyIn "GetTreatment" m || pyIn "Treatment" m)

/-- Flags contributed by one `invocation_expression` node. -/
def csInvocationFlags (vars : List (String × String)) (children : List CsNode) :
    List String :=
  match csMethodName children with
  | none => []
  | some m =>
    if csRecognized m then
      children.flatMap (fun child =>
        match child with
        | .argumentList acs =>
          acs.flatMap (fun ac =>
            match ac with
            | .argument avs => csArgValueFlags vars avs
            | _ => [])
        | _ => [])
    else []

mutual
/-- Model of `walk_tree`: handle the node (the `variable_declaration` and
`invocation_expression` branches), then recurse into all children. -/
def csWalk (st : List (String × String) × List String) :
    CsNode → List (String × String) × List String
  | .variableDeclaration cs => csWalkChildren (csHandleVarDeclaration st.1 cs, st.2) cs
  | .invocationExpression cs => csWalkChildren (st.1, st.2 ++ csInvocationFlags st.1 cs) cs
  | .variableDeclarator cs => csWalkChildren st cs
  | .identifier _ => st
  | .equalsValueClause cs => csWalkChildren st cs
  | .stringLiteral _ => st
  | .memberAccessExpression cs => csWalkChildren st cs
  | .argumentList cs => csWalkChildren st cs
  | .argument cs => csWalkChildren st cs
  | .objectCreationExpression cs => csWalkChildren st cs
  | .initializerExpression cs => csWalkChildren st cs
  | .otherNode cs => csWalkChildren st cs

/-- Child recursion of `walk_tree`. -/
def csWalkChildren (st : List (String × String) × List String) :
    List CsNode → List (String × String) × List String
  | [] => st
  | n :: ns => csWalkChildren (csWalk st n) ns
end

/-- The environment the C# analyzer probes before attempting a
tree-sitter parse. -/
structure CsEnv where
  treeSitterAvailable : Bool
  grammarPathExists : Bool
  buildSucceeds : Bool
deriving DecidableEq, Repr

/-- Model of `extract_flags_ast_csharp`: every unavailable-capability or failure
path delegates to the regex sub-fallback; a successful parse is walked
and deduplicated. -/
def extract_flags_ast_csharp (env : CsEnv) (parse : Option CsNode)
    (content : String) : List String :=
  if !env.treeSitterAvailable then extract_flags_csharp_regex_fallback content
  else if !env.grammarPathExists then extract_flags_csharp_regex_fallback content
  else if !env.buildSucceeds then extract_flags_csharp_regex_fallback content
  else
    match parse with
    | none => extract_flags_csharp_regex_fallback content
    | some root => pySet (csWalk ([], []) root).2

/-! ## Dispatcher and orchestrator (src/app/main.py,
`CITestRunner.get_feature_flags_in_code`) -/

/-- A changed file as the dispatcher sees it: its path, raw text (fed to
the regex analyzers) and the external parse attempts for each language
analyzer. -/
structure SourceFile where
  path : String
  text : String
  esprimaAvailable : Bool
  jsParse : Option JsNode
  javalangAvailable : Bool
  javaParse : Option (List JavaNode)
  pyParse : Option (List PyNode)
  csEnv : CsEnv
  csParse : Option CsNode

/-- The per-file dispatch of `get_feature_flags_in_code`: extension
suffix selects the analyzer; a non-`Regex` method whose result is empty
is retried with `extract_flags_regex`, whose result replaces it. -/
def get_feature_flags_for_file (f : SourceFile) : List String :=
  let primaryAttempt : Option (List String) :=
    if pyEndsWith f.path ".js" || pyEndsWith f.path ".jsx" then
      some (extract_flags_ast_javascript f.esprimaAvailable f.jsParse)
    else if pyEndsWith f.path ".java" then
      some (extract_flags_ast_java f.javalangAvailable f.javaParse)
    else if pyEndsWith f.path ".py" then
      some (extract_flags_ast_python f.pyParse)
    else if pyEndsWith f.path ".cs" then
      some (extract_flags_ast_csharp f.csEnv f.csParse f.text)
    else none
  match primaryAttempt with
  | none => extract_flags_regex f.text
  | some fileFlags =>
    if fileFlags.isEmpty then extract_flags_regex f.text else fileFlags

/-- Reading one changed file: the `open`/`read` either yields content or
raises one of the modelled exceptions. -/
inductive FileRead where
  | ok (f : SourceFile)
  | notFound (path : String)
  | decodeError (path : String)
  | permissionDenied (path : String)

/-- Model of `flag_file_mapping` update: create the entry on first sight, then
append the file path. -/
def appendMapping (m : List (String × List String)) (flag : String)
    (path : String) : List (String × List String) :=
  if m.any (fun p => p.1 == flag) then
    m.map (fun p => if p.1 == flag then (p.1, p.2 ++ [path]) else p)
  else m ++ [(flag, [path])]

/-- One iteration of the per-file loop.  `FileNotFoundError` and
`UnicodeDecodeError` are caught (`continue`); a `PermissionError` is not
named in the `except` clause and therefore propagates, aborting the
batch. -/
def orchStep (acc : List String × List (String × List String)) (fr : FileRead) :
    Except String (List String × List (String × List String)) :=
  match fr with
  | .ok f =>
    let fileFlags := get_feature_flags_for_file f
    if fileFlags.isEmpty then Except.ok acc
    else
      Except.ok (acc.1 ++ fileFlags,
        fileFlags.foldl (fun m flag => appendMapping m flag f.path) acc.2)
  | .notFound _ => Except.ok acc
  | .decodeError _ => Except.ok acc
  | .permissionDenied p => Except.error ("PermissionError: " ++ p)

/-- Model of `get_feature_flags_in_code`: iterate the changed files, dispatch per
file, accumulate flags and provenance, deduplicate at the end.  The
`Except` models an uncaught exception escaping the method. -/
def get_feature_flags_in_code (files : List FileRead) :
    Except String (List String × List (String × List String)) := do
  let acc ← files.foldlM orchStep ([], [])
  pure (pySet acc.1, acc.2)

/-! ## Helper lemmas -/

/-- Model of `list(set(...))` results carry no duplicates. -/
theorem pySet_nodup (xs : List String) : (pySet xs).Nodup :=
  List.nodup_dedup xs

/-- Both outcomes of the final deduplication step of the Python and
JavaScript analyzers are duplicate-free. -/
theorem pyFinalize_nodup (vals : List PyVal) : (pyFinalize vals).Nodup := by
  unfold pyFinalize
  split
  · exact pySet_nodup _
  · exact List.nodup_nil

/-- The `flags` accumulator of the Python walk only ever grows. -/
theorem pyStep_flags_extend (st : List (String × PyVal) × List PyVal)
    (nodes : List PyNode) :
    ∃ extra, (nodes.foldl pyStep st).2 = st.2 ++ extra := by
  induction nodes generalizing st with
  | nil => exact ⟨[], by simp⟩
  | cons n ns ih =>
    obtain ⟨extra, hextra⟩ := ih (pyStep st n)
    have hstep : ∃ mid, (pyStep st n).2 = st.2 ++ mid := by
      cases n with
      | assign ts v => exact ⟨[], by simp [pyStep]⟩
      | call f args =>
        cases hf : pyMethodNameOf f with
        | none => exact ⟨[], by simp [pyStep, hf]⟩
        | some m =>
          by_cases hm : m ∈ pythonFlagMethods
          · exact ⟨args.flatMap (pyArgFlags st.1), by simp [pyStep, hf, hm]⟩
          · exact ⟨[], by simp [pyStep, hf, hm]⟩
      | otherNode => exact ⟨[], by simp [pyStep]⟩
    obtain ⟨mid, hmid⟩ := hstep
    exact ⟨mid ++ extra, by simp [List.foldl_cons, hextra, hmid]⟩

/-- The C# regex sub-fallback also ends in `list(set(...))`. -/
theorem csfallback_nodup (ct : String) :
    (extract_flags_csharp_regex_fallback ct).Nodup := by
  unfold extract_flags_csharp_regex_fallback
  exact pySet_nodup _

/-! ## Claim theorems -/

/-- Claim C1, counterexample: the C# AST analyzer recognizes method names
by substring containment, not by case-sensitive exact match against the
vocabulary, so the string literal passed to `logTreatmentResult` — a
method name outside the recognized vocabulary — appears in the result. -/
theorem c1_counterexample :
    extract_flags_ast_csharp ⟨true, true, true⟩ (some (CsNode.invocationExpression [
      CsNode.memberAccessExpression [CsNode.identifier "client",
        CsNode.identifier "logTreatmentResult"],
      CsNode.argumentList [CsNode.argument [CsNode.stringLiteral "not-a-flag"]]])) ""
    = ["not-a-flag"] := by
  decide

/-- Claim C1, amended: the C# AST analyzer recognizes a method when its
name contains `GetTreatment` or `Treatment` as a (case-sensitive)
substring; an invocation whose method name contains neither contributes
no flags, and `client.getUser("not-a-flag")` yields the empty set for
both the C# AST analyzer and the regex fallback. -/
theorem c1_amended :
    (∀ (vars : List (String × String)) (children : List CsNode) (m : String),
       csMethodName children = some m → csRecognized m = false →
       csInvocationFlags vars children = []) ∧
    extract_flags_ast_csharp ⟨true, true, true⟩ (some (CsNode.invocationExpression [
      CsNode.memberAccessExpression [CsNode.identifier "client", CsNode.identifier "getUser"],
      CsNode.argumentList [CsNode.argument [CsNode.stringLiteral "not-a-flag"]]])) "" = [] ∧
    extract_flags_regex "client.getUser(\"not-a-flag\");" = [] := by
  refine ⟨fun vars children m hm hrec => ?_, by decide, by decide⟩
  unfold csInvocationFlags
  rw [hm]
  simp [hrec]

/-- Witness for the amended claim C1 at the `getUser` invocation. -/
theorem c1_amended_witness :
    csInvocationFlags [] [CsNode.memberAccessExpression [CsNode.identifier "client",
      CsNode.identifier "getUser"],
      CsNode.argumentList [CsNode.argument [CsNode.stringLiteral "not-a-flag"]]] = [] :=
  c1_amended.1 [] _ "getUser" (by decide) (by decide)

/-- Claim C3, counterexample: in the regex fallback the qualified
list-construction idiom `Arrays.asList(...)` is not gated on a recognized
flag-evaluation call — standing alone it still contributes its quoted
string elements. -/
theorem c3_counterexample :
    extract_flags_regex "Arrays.asList(\"lonely\")" = ["lonely"] := by
  decide

/-- Claim C3, amended: of the three constructs only the generic list
constructor in argument position is gated on a recognized call (a bare
`new List<string> {...}` contributes nothing, while inside a
`GetTreatments` call it contributes); `Arrays.asList(...)`,
`new String[]{...}`, and the `var`/typed declaration forms of
`new List<string> {...}` match anywhere and contribute standing alone. -/
theorem c3_amended :
    extract_flags_regex "new String[]\x7b\"sf\"\x7d" = ["sf"] ∧
    extract_flags_regex "var x = new List<string> \x7b\"vf\"\x7d" = ["vf"] ∧
    extract_flags_regex "List<string> y = new List<string> \x7b\"df\"\x7d" = ["df"] ∧
    extract_flags_regex "new List<string> \x7b\"nf\"\x7d" = [] ∧
    extract_flags_regex "GetTreatments(new List<string> \x7b\"gf\"\x7d)" = ["gf"] := by
  refine ⟨by decide, by decide, by decide, by decide, by decide⟩

/-- Claim C6 (code bug): on a source whose walk also appends an
unhashable list value (an identifier bound to a list inside an inline
list argument), the final `list(set(flags))` raises and the caught
exception discards every flag, so the string-literal argument
`"real-flag"` of a recognized call does not appear in the result even
though the walk found it. -/
theorem c6_code_bug_eval :
    PyVal.str "real-flag" ∈ pyWalkFlags [
      PyNode.assign [PyTarget.name "X"]
        (PyExpr.listE [PyExpr.constantStr "a", PyExpr.constantStr "b"]),
      PyNode.call (PyFunc.attribute "get_treatment") [PyExpr.constantStr "real-flag"],
      PyNode.call (PyFunc.attribute "get_treatments") [PyExpr.listE [PyExpr.name "X"]]] ∧
    extract_flags_ast_python (some [
      PyNode.assign [PyTarget.name "X"]
        (PyExpr.listE [PyExpr.constantStr "a", PyExpr.constantStr "b"]),
      PyNode.call (PyFunc.attribute "get_treatment") [PyExpr.constantStr "real-flag"],
      PyNode.call (PyFunc.attribute "get_treatments") [PyExpr.listE [PyExpr.name "X"]]])
    = [] := by
  exact ⟨by decide, by decide⟩

/-- Claim C8: every analyzer absorbs its failure modes — a missing
structural-parsing dependency or a failed parse yields the empty set for
the Python, Java and JavaScript analyzers, and every such path of the C#
analyzer (missing tree-sitter, missing grammar, failed build, failed
parse) delegates to its regex sub-fallback; no path propagates an
error. -/
theorem c8_failure_paths_absorbed :
    (extract_flags_ast_python none = []) ∧
    (∀ p, extract_flags_ast_java false p = []) ∧
    (extract_flags_ast_java true none = []) ∧
    (∀ p, extract_flags_ast_javascript false p = []) ∧
    (extract_flags_ast_javascript true none = []) ∧
    (∀ (g b : Bool) (p : Option CsNode) (ct : String),
       extract_flags_ast_csharp ⟨false, g, b⟩ p ct = extract_flags_csharp_regex_fallback ct) ∧
    (∀ (b : Bool) (p : Option CsNode) (ct : String),
       extract_flags_ast_csharp ⟨true, false, b⟩ p ct = extract_flags_csharp_regex_fallback ct) ∧
    (∀ (p : Option CsNode) (ct : String),
       extract_flags_ast_csharp ⟨true, true, false⟩ p ct = extract_flags_csharp_regex_fallback ct) ∧
    (∀ ct : String,
       extract_flags_ast_csharp ⟨true, true, true⟩ none ct = extract_flags_csharp_regex_fallback ct) :=
  ⟨rfl, fun _ => rfl, rfl, fun _ => rfl, rfl,
   fun _ _ _ _ => rfl, fun _ _ _ => rfl, fun _ _ => rfl, fun _ => rfl⟩

/-- Claim C9: every extraction function returns, for every input, a
finite duplicate-free list (returning a list at all — never `None` — is
enforced by the return types of the models). -/
theorem c9_results_deduplicated :
    (∀ s : String, (extract_flags_regex s).Nodup) ∧
    (∀ pp : Option (List PyNode), (extract_flags_ast_python pp).Nodup) ∧
    (∀ (jb : Bool) (jp : Option (List JavaNode)), (extract_flags_ast_java jb jp).Nodup) ∧
    (∀ (eb : Bool) (ep : Option JsNode), (extract_flags_ast_javascript eb ep).Nodup) ∧
    (∀ (env : CsEnv) (cp : Option CsNode) (ct : String),
       (extract_flags_ast_csharp env cp ct).Nodup) ∧
    (∀ ct : String, (extract_flags_csharp_regex_fallback ct).Nodup) := by
  refine ⟨fun s => ?_, fun pp => ?_, fun jb jp => ?_, fun eb ep => ?_,
    fun env cp ct => ?_, fun ct => csfallback_nodup ct⟩
  · unfold extract_flags_regex
    exact pySet_nodup _
  · cases pp with
    | none => exact List.nodup_nil
    | some nodes => exact pyFinalize_nodup _
  · cases jb with
    | false => exact List.nodup_nil
    | true =>
      cases jp with
      | none => exact List.nodup_nil
      | some nodes => exact pySet_nodup _
  · cases eb with
    | false => exact List.nodup_nil
    | true =>
      cases ep with
      | none => exact List.nodup_nil
      | some root => exact pyFinalize_nodup _
  · obtain ⟨ts, gr, bd⟩ := env
    cases ts with
    | false => exact csfallback_nodup ct
    | true =>
      cases gr with
      | false => exact csfallback_nodup ct
      | true =>
        cases bd with
        | false => exact csfallback_nodup ct
        | true =>
          cases cp with
          | none => exact csfallback_nodup ct
          | some root => exact pySet_nodup _

/-- Reduction of a bind on an `Except.ok` (the `Except` monad's `pure`). -/
theorem except_ok_bind {a b : Type} (x : a) (f : a → Except String b) :
    (Except.ok x >>= f) = f x := rfl

/-- Splitting the orchestrator's monadic fold over an appended batch. -/
theorem orch_foldlM_append (l1 l2 : List FileRead)
    (init : List String × List (String × List String)) :
    (l1 ++ l2).foldlM orchStep init =
    (l1.foldlM orchStep init) >>= fun s => l2.foldlM orchStep s := by
  induction l1 generalizing init with
  | nil => simp
  | cons fr fs ih =>
    simp only [List.cons_append, List.foldlM_cons]
    cases orchStep init fr with
    | error e => rfl
    | ok s => exact ih s

/-- Without a permission error in the batch, the orchestrator's fold
never aborts. -/
theorem orch_no_permission_ok (files : List FileRead) :
    (∀ p : String, FileRead.permissionDenied p ∉ files) →
    ∀ acc, ∃ res, files.foldlM orchStep acc = Except.ok res := by
  induction files with
  | nil => exact fun _ acc => ⟨acc, rfl⟩
  | cons fr fs ih =>
    intro h acc
    have hfr : ∃ s, orchStep acc fr = Except.ok s := by
      cases fr with
      | ok f =>
        by_cases hemp : (get_feature_flags_for_file f).isEmpty
        · exact ⟨acc, by simp [orchStep, hemp]⟩
        · exact ⟨(acc.1 ++ get_feature_flags_for_file f,
            List.foldl (fun m flag => appendMapping m flag f.path) acc.2
              (get_feature_flags_for_file f)), by simp [orchStep, hemp]⟩
      | notFound p => exact ⟨acc, rfl⟩
      | decodeError p => exact ⟨acc, rfl⟩
      | permissionDenied p => exact absurd (List.mem_cons_self _ _) (h p)
    obtain ⟨s, hs⟩ := hfr
    obtain ⟨res, hres⟩ := ih (fun p hp => h p (List.mem_cons_of_mem _ hp)) s
    exact ⟨res, by rw [List.foldlM_cons, hs]; exact hres⟩

/-- Claim C2, counterexample: a permission error is not among the caught
exception types (`FileNotFoundError`, `UnicodeDecodeError`), so it aborts
the whole batch — the file after it is never processed. -/
theorem c2_counterexample :
    get_feature_flags_in_code [
      FileRead.ok ⟨"a.cs", "GetTreatment(\"f1\");", true, none, true, none, none,
        ⟨false, false, false⟩, none⟩,
      FileRead.permissionDenied "b.py",
      FileRead.ok ⟨"c.txt", "getTreatment(\"f2\")", true, none, true, none, none,
        ⟨true, true, true⟩, none⟩]
    = Except.error "PermissionError: b.py" := by
  rfl

/-- Claim C2, amended: a file whose read fails because it is missing or
because of a bad encoding is skipped and the remaining files are still
processed (removing such an entry from anywhere in the batch leaves the
result unchanged); a permission error, however, is not caught and aborts
the batch — only batches free of permission errors always complete. -/
theorem c2_amended :
    (∀ (pre post : List FileRead) (p : String),
       get_feature_flags_in_code (pre ++ FileRead.notFound p :: post) =
       get_feature_flags_in_code (pre ++ post)) ∧
    (∀ (pre post : List FileRead) (p : String),
       get_feature_flags_in_code (pre ++ FileRead.decodeError p :: post) =
       get_feature_flags_in_code (pre ++ post)) ∧
    (∀ files : List FileRead,
       (∀ p : String, FileRead.permissionDenied p ∉ files) →
       (get_feature_flags_in_code files).isOk = true) := by
  refine ⟨fun pre post p => ?_, fun pre post p => ?_, fun files h => ?_⟩
  · have hfold : (pre ++ FileRead.notFound p :: post).foldlM orchStep ([], []) =
        (pre ++ post).foldlM orchStep ([], []) := by
      rw [orch_foldlM_append, orch_foldlM_append]
      exact congrArg (fun k => (pre.foldlM orchStep ([], [])) >>= k)
        (funext fun s => rfl)
    unfold get_feature_flags_in_code
    rw [hfold]
  · have hfold : (pre ++ FileRead.decodeError p :: post).foldlM orchStep ([], []) =
        (pre ++ post).foldlM orchStep ([], []) := by
      rw [orch_foldlM_append, orch_foldlM_append]
      exact congrArg (fun k => (pre.foldlM orchStep ([], [])) >>= k)
        (funext fun s => rfl)
    unfold get_feature_flags_in_code
    rw [hfold]
  · obtain ⟨res, hres⟩ := orch_no_permission_ok files h ([], [])
    simp [get_feature_flags_in_code, hres, Except.isOk, Except.toBool]

/-- Witness for the amended claim C2 on a concrete two-file batch with a
missing file. -/
theorem c2_amended_witness :
    (get_feature_flags_in_code [
      FileRead.ok ⟨"a.cs", "GetTreatment(\"f1\");", true, none, true, none, none,
        ⟨false, false, false⟩, none⟩,
      FileRead.notFound "b.py"]).isOk = true :=
  c2_amended.2.2 _ (fun p hp => by simp at hp)

/-- Claim C4, counterexample: the call-site anchor class is `[^a-zA-Z]`,
which an underscore satisfies even though it is an identifier character,
so the call-site pattern does match `get_treatment` inside the longer
identifier `my_get_treatment` and yields a flag. -/
theorem c4_counterexample :
    extract_flags_regex "my_get_treatment(\"x\")" = ["x"] := by
  decide

/-- Claim C4, amended: a call-site match requires a non-LETTER character
or start-of-text immediately before the (optionally prefixed) method
name; digits and underscores are identifier characters but still anchor
a match, so camelCase embeddings (`myGetTreatmentHelper`) are rejected
while `my1GetTreatment("d")` is matched. -/
theorem c4_amended :
    (∀ (pm : Matcher) (atStart : Bool) (rest : List Char) (cap : String) (n : Nat),
       anchoredAttempt pm atStart rest = some (cap, n) →
       (atStart = true ∧ pm rest = some (cap, n)) ∨
       (∃ c rs k, rest = c :: rs ∧ isAsciiLetter c = false ∧
          pm rs = some (cap, k) ∧ n = k + 1)) ∧
    extract_flags_regex "myGetTreatmentHelper(\"x\")" = [] ∧
    extract_flags_regex "my1GetTreatment(\"d\")" = ["d"] := by
  refine ⟨fun pm atStart rest cap n h => ?_, by decide, by decide⟩
  have hvia : ∀ (h2 : anchorCharAttempt pm rest = some (cap, n)),
      ∃ c rs k, rest = c :: rs ∧ isAsciiLetter c = false ∧
        pm rs = some (cap, k) ∧ n = k + 1 := by
    intro h2
    cases rest with
    | nil => exact absurd h2 (by simp [anchorCharAttempt])
    | cons c rs =>
      by_cases hl : isAsciiLetter c
      · simp [anchorCharAttempt, hl] at h2
      · simp only [anchorCharAttempt, if_neg hl] at h2
        obtain ⟨r, hr, heq⟩ := Option.map_eq_some'.mp h2
        refine ⟨c, rs, r.2, rfl, by simpa using hl, ?_, ?_⟩
        · rw [hr]
          have : r.1 = cap := congrArg Prod.fst heq
          rw [← this]
        · exact (congrArg Prod.snd heq).symm
  cases atStart with
  | false =>
    replace h : anchorCharAttempt pm rest = some (cap, n) := by
      simpa [anchoredAttempt] using h
    exact Or.inr (hvia h)
  | true =>
    replace h : (pm rest <|> anchorCharAttempt pm rest) = some (cap, n) := by
      simpa [anchoredAttempt] using h
    cases hpm : pm rest with
    | some r =>
      rw [hpm] at h
      simp only [Option.some_orElse] at h
      exact Or.inl ⟨rfl, h⟩
    | none =>
      rw [hpm] at h
      simp only [Option.none_orElse] at h
      exact Or.inr (hvia h)

/-- Witness for the amended claim C4 at the underscore-anchored position
inside `x_treatment("y")`. -/
theorem c4_amended_witness :
    (false = true ∧
      pattern1NameM afterNameM ("_treatment(\"y\")".toList) = some ("y", 14)) ∨
    (∃ c rs k, "_treatment(\"y\")".toList = c :: rs ∧ isAsciiLetter c = false ∧
      pattern1NameM afterNameM rs = some ("y", k) ∧ 14 = k + 1) :=
  c4_amended.1 (pattern1NameM afterNameM) false ("_treatment(\"y\")".toList)
    "y" 14 (by decide)

/-- Claim C5: the dispatcher selects the analyzer by file-extension
suffix (`.js`/`.jsx` JavaScript, `.java` Java, `.py` Python, `.cs` C#,
anything else the regex fallback directly), and an empty primary result
is replaced — not merged — with the regex fallback's result. -/
theorem c5_dispatch (f : SourceFile) :
    ((pyEndsWith f.path ".js" = true ∨ pyEndsWith f.path ".jsx" = true) →
       get_feature_flags_for_file f =
         (if (extract_flags_ast_javascript f.esprimaAvailable f.jsParse).isEmpty
          then extract_flags_regex f.text
          else extract_flags_ast_javascript f.esprimaAvailable f.jsParse)) ∧
    (pyEndsWith f.path ".js" = false → pyEndsWith f.path ".jsx" = false →
     pyEndsWith f.path ".java" = true →
       get_feature_flags_for_file f =
         (if (extract_flags_ast_java f.javalangAvailable f.javaParse).isEmpty
          then extract_flags_regex f.text
          else extract_flags_ast_java f.javalangAvailable f.javaParse)) ∧
    (pyEndsWith f.path ".js" = false → pyEndsWith f.path ".jsx" = false →
     pyEndsWith f.path ".java" = false → pyEndsWith f.path ".py" = true →
       get_feature_flags_for_file f =
         (if (extract_flags_ast_python f.pyParse).isEmpty
          then extract_flags_regex f.text
          else extract_flags_ast_python f.pyParse)) ∧
    (pyEndsWith f.path ".js" = false → pyEndsWith f.path ".jsx" = false →
     pyEndsWith f.path ".java" = false → pyEndsWith f.path ".py" = false →
     pyEndsWith f.path ".cs" = true →
       get_feature_flags_for_file f =
         (if (extract_flags_ast_csharp f.csEnv f.csParse f.text).isEmpty
          then extract_flags_regex f.text
          else extract_flags_ast_csharp f.csEnv f.csParse f.text)) ∧
    (pyEndsWith f.path ".js" = false → pyEndsWith f.path ".jsx" = false →
     pyEndsWith f.path ".java" = false → pyEndsWith f.path ".py" = false →
     pyEndsWith f.path ".cs" = false →
       get_feature_flags_for_file f = extract_flags_regex f.text) := by
  refine ⟨fun h => ?_, fun h1 h2 h3 => ?_, fun h1 h2 h3 h4 => ?_,
    fun h1 h2 h3 h4 h5 => ?_, fun h1 h2 h3 h4 h5 => ?_⟩
  · have hor : (pyEndsWith f.path ".js" || pyEndsWith f.path ".jsx") = true := by
      rcases h with h | h <;> simp [h]
    simp [get_feature_flags_for_file, hor]
  · simp [get_feature_flags_for_file, h1, h2, h3]
  · simp [get_feature_flags_for_file, h1, h2, h3, h4]
  · simp [get_feature_flags_for_file, h1, h2, h3, h4, h5]
  · simp [get_feature_flags_for_file, h1, h2, h3, h4, h5]

/-- Witness for claim C5 at a concrete `.py` file whose Python analyzer
result is non-empty. -/
theorem c5_dispatch_witness :
    get_feature_flags_for_file ⟨"x.py", "get_treatment(\"r\")", true, none, true, none,
      some [PyNode.call (PyFunc.name "get_treatment") [PyExpr.constantStr "ast-flag"]],
      ⟨true, true, true⟩, none⟩ =
    (if (extract_flags_ast_python (some [PyNode.call (PyFunc.name "get_treatment")
        [PyExpr.constantStr "ast-flag"]])).isEmpty
     then extract_flags_regex "get_treatment(\"r\")"
     else extract_flags_ast_python (some [PyNode.call (PyFunc.name "get_treatment")
        [PyExpr.constantStr "ast-flag"]])) :=
  (c5_dispatch _).2.2.1 (by decide) (by decide) (by decide) (by decide)

/-- Whether a Python argument expression is a bare identifier. -/
def pyExprIsName : PyExpr → Bool
  | .name _ => true
  | _ => false

/-- The top-level string-literal elements of an inline list argument. -/
def pyTopLevelStr : PyExpr → Option PyVal
  | .constantStr s => some (PyVal.str s)
  | _ => none

/-- Claim C7: an inline list-literal argument of a recognized Python call
contributes exactly its top-level string-literal elements — nested list
elements are skipped, not recursed into — so
`get_treatments(["a", ["b","c"], "d"])` yields exactly `{"a","d"}`. -/
theorem c7_nested_list_excluded :
    (∀ (vars : List (String × PyVal)) (elts : List PyExpr),
       (∀ e ∈ elts, pyExprIsName e = false) →
       pyArgFlags vars (PyExpr.listE elts) = elts.filterMap pyTopLevelStr) ∧
    extract_flags_ast_python (some [PyNode.call (PyFunc.attribute "get_treatments")
      [PyExpr.listE [PyExpr.constantStr "a",
        PyExpr.listE [PyExpr.constantStr "b", PyExpr.constantStr "c"],
        PyExpr.constantStr "d"]]]) = ["a", "d"] := by
  refine ⟨fun vars elts h => ?_, by decide⟩
  induction elts with
  | nil => rfl
  | cons e es ih =>
    have he := h e (List.mem_cons_self e es)
    have ih' := ih (fun x hx => h x (List.mem_cons_of_mem e hx))
    cases e with
    | constantStr s => exact congrArg (List.cons (PyVal.str s)) ih'
    | constantOther => exact ih'
    | name id => exact absurd he (by simp [pyExprIsName])
    | listE l => exact ih'
    | otherExpr => exact ih'

/-- Witness for claim C7 at the inline list of the claim's example. -/
theorem c7_witness :
    pyArgFlags [] (PyExpr.listE [PyExpr.constantStr "a",
      PyExpr.listE [PyExpr.constantStr "b", PyExpr.constantStr "c"],
      PyExpr.constantStr "d"]) =
    List.filterMap pyTopLevelStr [PyExpr.constantStr "a",
      PyExpr.listE [PyExpr.constantStr "b", PyExpr.constantStr "c"],
      PyExpr.constantStr "d"] :=
  c7_nested_list_excluded.1 [] _ (by decide)

/-- Claim C10: whenever an identifier bound to a list of strings appears
as an element inside an inline list-literal argument of a recognized
Python call, the raw list value is appended to the flags accumulator as
one (unhashable) element and the analyzer's final `list(set(flags))`
fails, so the whole result collapses to the empty list — every flag found
elsewhere in the source is discarded; the JavaScript analyzer behaves the
same way on its corresponding input. -/
theorem c10_unhashable_discards_all :
    (∀ (pre post : List PyNode) (f : PyFunc) (args elts : List PyExpr)
       (id m : String) (xs : List String),
       pyMethodNameOf f = some m →
       pythonFlagMethods.contains m = true →
       PyExpr.listE elts ∈ args →
       PyExpr.name id ∈ elts →
       pyVarsFind ((pre.foldl pyStep ([], [])).1) id = some (PyVal.list xs) →
       PyVal.list xs ∈ pyWalkFlags (pre ++ PyNode.call f args :: post) ∧
       extract_flags_ast_python (some (pre ++ PyNode.call f args :: post)) = []) ∧
    extract_flags_ast_javascript true (some (JsNode.otherNode [
      JsNode.variableDeclaration [⟨some "X",
        JsInit.arrayExpression [JsElem.literalStr "a", JsElem.literalStr "b"]⟩] [],
      JsNode.callExpression (some "getTreatments")
        [JsArg.arrayExpression [JsElem.identifier "X", JsElem.literalStr "c"]] []]))
      = [] := by
  refine ⟨fun pre post f args elts id m xs hf hm hargs hid hvar => ?_, by decide⟩
  set st := pre.foldl pyStep ([], []) with hst
  have hm' : m ∈ pythonFlagMethods := by simpa using hm
  have hmem1 : PyVal.list xs ∈ pyArgFlags st.1 (PyExpr.listE elts) := by
    unfold pyArgFlags
    refine List.mem_flatMap.mpr ⟨PyExpr.name id, hid, ?_⟩
    show PyVal.list xs ∈ (match pyVarsFind st.1 id with
      | some v => [v]
      | none => [])
    rw [hvar]
    exact List.mem_singleton.mpr rfl
  have hmem2 : PyVal.list xs ∈ args.flatMap (pyArgFlags st.1) :=
    List.mem_flatMap.mpr ⟨PyExpr.listE elts, hargs, hmem1⟩
  have hcall : pyStep st (PyNode.call f args) =
      (st.1, st.2 ++ args.flatMap (pyArgFlags st.1)) := by
    simp [pyStep, hf, hm']
  have hwalk : pyWalkFlags (pre ++ PyNode.call f args :: post) =
      (post.foldl pyStep (pyStep st (PyNode.call f args))).2 := by
    simp [pyWalkFlags, List.foldl_append, List.foldl_cons, hst]
  obtain ⟨extra, hextra⟩ := pyStep_flags_extend (pyStep st (PyNode.call f args)) post
  have hmemfinal : PyVal.list xs ∈ pyWalkFlags (pre ++ PyNode.call f args :: post) := by
    rw [hwalk, hextra, hcall]
    exact List.mem_append.mpr (Or.inl (List.mem_append.mpr (Or.inr hmem2)))
  refine ⟨hmemfinal, ?_⟩
  show pyFinalize (pyWalkFlags (pre ++ PyNode.call f args :: post)) = []
  unfold pyFinalize
  rw [if_neg]
  intro hall
  exact absurd (List.all_eq_true.mp hall _ hmemfinal) (by simp [PyVal.isStr])

/-- Witness for claim C10 at the concrete source
`X = ["a","b"]` followed by `client.get_treatments([X, "c"])`. -/
theorem c10_witness :
    PyVal.list ["a", "b"] ∈ pyWalkFlags
      ([PyNode.assign [PyTarget.name "X"]
          (PyExpr.listE [PyExpr.constantStr "a", PyExpr.constantStr "b"])] ++
        PyNode.call (PyFunc.attribute "get_treatments")
          [PyExpr.listE [PyExpr.name "X", PyExpr.constantStr "c"]] :: []) ∧
    extract_flags_ast_python (some
      ([PyNode.assign [PyTarget.name "X"]
          (PyExpr.listE [PyExpr.constantStr "a", PyExpr.constantStr "b"])] ++
        PyNode.call (PyFunc.attribute "get_treatments")
          [PyExpr.listE [PyExpr.name "X", PyExpr.constantStr "c"]] :: [])) = [] :=
  c10_unhashable_discards_all.1
    [PyNode.assign [PyTarget.name "X"]
      (PyExpr.listE [PyExpr.constantStr "a", PyExpr.constantStr "b"])] []
    (PyFunc.attribute "get_treatments")
    [PyExpr.listE [PyExpr.name "X", PyExpr.constantStr "c"]]
    [PyExpr.name "X", PyExpr.constantStr "c"] "X" "get_treatments" ["a", "b"]
    rfl (by decide) (List.mem_singleton.mpr rfl) (List.mem_cons_self _ _) (by decide)

end FmeValidator
